import Mathlib

/-
Verification of the context-retrieval engine of the GraphRAG code-analysis
service (backend/rag_api_service/app.py) against its design document.

Strings are modelled as `List Char`.  Python `str.lower()` is modelled by
`Char.toLower` (ASCII case folding, which covers every string literal the
program compares against) and `str.split()` (no argument: split on runs of
whitespace, discarding empty tokens) by `splitWs` below, with
`Char.isWhitespace` as the whitespace predicate.
-/

namespace GraphRag

abbrev Str := List Char

/-- Python `str.split()`: accumulate the current token (reversed) while
scanning; a whitespace character closes the token; empty tokens are dropped. -/
def splitWsAux (cur : Str) : Str → List Str
  | [] => if cur = [] then [] else [cur.reverse]
  | c :: cs =>
    if c.isWhitespace then
      if cur = [] then splitWsAux [] cs else cur.reverse :: splitWsAux [] cs
    else
      splitWsAux (c :: cur) cs

def splitWs (s : Str) : List Str := splitWsAux [] s

/-- Lowercase a whole token, as Python `word.lower()`. -/
def lowStr (w : Str) : Str := w.map Char.toLower

/-- The fixed stop-word list of app.py line 344. -/
def stopWords : List Str :=
  ["the".data, "and".data, "for".data, "with".data, "what".data, "how".data,
   "why".data, "where".data, "when".data, "who".data, "which".data]

/-- Keyword extraction, app.py lines 342-344:
`keywords = [word.lower() for word in user_query.split() if len(word) > 2]`
then drop the stop words. -/
def extractKeywords (q : Str) : List Str :=
  let keywords := ((splitWs q).filter (fun w => decide (2 < w.length))).map lowStr
  keywords.filter (fun w => decide (w ∉ stopWords))

/-- Spec-side formula for the keyword set (§4.3 stage 4, read literally):
the set of lowercased whitespace-separated tokens longer than 2 characters,
minus the stop-word set. -/
def keywordSpecSet (q : Str) : Finset Str :=
  (((splitWs q).map lowStr).filter
    (fun w => decide (2 < w.length) && decide (w ∉ stopWords))).toFinset

/-- Joining tokens back with single spaces (used to express idempotence of
extraction on its own output). -/
def joinSp : List Str → Str
  | [] => []
  | [w] => w
  | w :: v :: rest => w ++ ' ' :: joinSp (v :: rest)

/-- A token is a stop token when its lowercasing is in the stop-word list. -/
def isStopTok (w : Str) : Bool := decide (lowStr w ∈ stopWords)

/-! Graph data model.  A node carries the properties the queries of app.py
read: `labels(n)`, `n.name`, `n.file_path`, `n.path`, `n.description`,
`n.context_sample`, `n.repo_id`.  Absent properties are `none` (Cypher
`null`). -/

structure Node where
  labels : List Str
  name : Option Str
  file_path : Option Str
  path : Option Str
  description : Option Str
  context_sample : Option Str
  repo_id : Option Str
deriving DecidableEq

/-- Python rendering of a possibly-null value inside an f-string: `None`
prints as the four characters `None`. -/
def pyStr : Option Str → Str
  | some s => s
  | none => "None".data

/-- Python truthiness of a string-or-None value: `None` and `""` are falsy. -/
def truthyO : Option Str → Bool
  | some s => decide (s ≠ [])
  | none => false

/-- Cypher equality between two possibly-null values: a comparison involving
`null` is never true. -/
def cypherEq (a b : Option Str) : Bool :=
  match a, b with
  | some x, some y => decide (x = y)
  | _, _ => false

/-- Cypher `x IN list` where `x` may be null: null membership is never true. -/
def optIn (o : Option Str) (l : List Str) : Bool :=
  match o with
  | some s => decide (s ∈ l)
  | none => false

def hasLabel (n : Node) (l : Str) : Bool := decide (l ∈ n.labels)

/-- Keep the first occurrence of every element (Cypher `DISTINCT` keeps rows
in first-appearance order); `seen` accumulates what was already emitted. -/
def dedupFirst {α} [DecidableEq α] (seen : List α) : List α → List α
  | [] => []
  | x :: xs =>
    if x ∈ seen then dedupFirst seen xs else x :: dedupFirst (x :: seen) xs

/-! Rows returned by the retrieval queries.  The two vector-index queries
additionally return the similarity score (`VRow`); every other query returns
the bare projection (`Row`). -/

structure Row where
  name : Option Str
  type : Option Str
  filePath : Option Str
  description : Option Str
  code : Option Str
deriving DecidableEq

structure VRow extends Row where
  score : ℚ
deriving DecidableEq

/-- Insertion step of the `ORDER BY score DESC` sort. -/
def insertScoreDesc (r : VRow) : List VRow → List VRow
  | [] => [r]
  | x :: xs => if x.score < r.score then r :: x :: xs else x :: insertScoreDesc r xs

/-- Model of Cypher `ORDER BY score DESC` (insertion sort; Cypher fixes no
tie order). -/
def sortScoreDesc : List VRow → List VRow
  | [] => []
  | r :: rs => insertScoreDesc r (sortScoreDesc rs)

/-- One candidate yielded by `db.index.vector.queryNodes`: a node and its
similarity score. -/
structure Cand where
  node : Node
  score : ℚ
deriving DecidableEq

/-- Projection of the function-index query (app.py lines 237-243): `name`,
`labels(node)[0]`, `node.file_path AS filePath`, `description`,
`node.context_sample as code`, `score`. -/
def functionRowOf (c : Cand) : VRow :=
  { name := c.node.name, type := c.node.labels.head?, filePath := c.node.file_path,
    description := c.node.description, code := c.node.context_sample, score := c.score }

/-- The function-index vector query, app.py lines 237-244: filter
`score > 0.6 AND node.file_path IS NOT NULL`, project, `ORDER BY score DESC`. -/
def functionQueryRows (cands : List Cand) : List VRow :=
  sortScoreDesc ((cands.filter
    (fun c => decide ((0.6 : ℚ) < c.score) && c.node.file_path.isSome)).map functionRowOf)

/-- Projection of the file-index query (app.py lines 247-252): here
`filePath` is `node.path`, and there is no `file_path` filter. -/
def fileRowOf (c : Cand) : VRow :=
  { name := c.node.name, type := c.node.labels.head?, filePath := c.node.path,
    description := c.node.description, code := c.node.context_sample, score := c.score }

/-- The file-index vector query, app.py lines 247-254: filter `score > 0.6`
only, project, `ORDER BY score DESC`. -/
def fileQueryRows (cands : List Cand) : List VRow :=
  sortScoreDesc ((cands.filter (fun c => decide ((0.6 : ℚ) < c.score))).map fileRowOf)

/-- The seed identifier built at app.py line 258:
`f"\x7bres['name']\x7d-\x7bres['filePath']\x7d"`. -/
def entityIdOf (r : VRow) : Str := pyStr r.name ++ ['-'] ++ pyStr r.filePath

/-- Cypher `split(s, '-')`: cut at every dash, keeping empty segments. -/
def splitDashAux (cur : Str) : Str → List Str
  | [] => [cur.reverse]
  | c :: cs =>
    if c = '-' then cur.reverse :: splitDashAux [] cs else splitDashAux (c :: cur) cs

def splitDash (s : Str) : List Str := splitDashAux [] s

def funcLabel : Str := "Function".data
def fileLabel : Str := "File".data

/-- Start-node matching of the traversal query, app.py lines 278-282:
`split(entityId,'-')[0]` is taken as the name and `split(entityId,'-')[1]`
as the file path, then
`(start:Function AND start.name = name AND start.file_path = filePath) OR
 (start:File AND start.path = filePath)`. -/
def matchStart (nodes : List Node) (eid : Str) : List Node :=
  let parts := splitDash eid
  nodes.filter (fun n =>
    (hasLabel n funcLabel && cypherEq n.name (parts.get? 0)
      && cypherEq n.file_path (parts.get? 1))
    || (hasLabel n fileLabel && cypherEq n.path (parts.get? 1)))

/-- Spec-side start matching (§4.3 stage 2, read literally): the node is
located by the seed's own `(name, location)` identity — a function-like node
whose name and file_path equal the seed's name and file path, or a file-like
node whose path equals the seed's file path. -/
def seedMatches (nm fp : Str) (n : Node) : Bool :=
  (hasLabel n funcLabel && decide (n.name = some nm) && decide (n.file_path = some fp))
  || (hasLabel n fileLabel && decide (n.path = some fp))

/-- Shared projection of the traversal query (app.py 291-293) and the path
query (app.py 320-322): `name`, `labels(node)[0]`,
`coalesce(node.file_path, node.path) AS filePath`, `description`, `code`. -/
def nodeRowOf (n : Node) : Row :=
  { name := n.name, type := n.labels.head?,
    filePath := match n.file_path with | some p => some p | none => n.path,
    description := n.description, code := n.context_sample }

/-- The traversal query, app.py lines 277-295.  `reach s` models the stream
of `last(nodes(path))` values yielded by `apoc.path.expandConfig` (an
external library primitive: 1-2 hops over the relationship vocabulary with
NODE_GLOBAL uniqueness) for the start node `s`; the query keeps those with
`node <> start`, projects, applies `DISTINCT` and `LIMIT 20`. -/
def traversalRows (nodes : List Node) (reach : Node → List Node)
    (entityIds : List Str) : List Row :=
  let starts := entityIds.flatMap (fun eid => matchStart nodes eid)
  let kept := starts.flatMap (fun s => (reach s).filter (fun n => decide (n ≠ s)))
  (dedupFirst [] (kept.map nodeRowOf)).take 20

/-- Paths between name-matched node pairs, app.py lines 313-315:
`MATCH (a), (b) WHERE a.name = $entity1 AND b.name = $entity2` then
`apoc.algo.allSimplePaths(a, b, null, 3)`.  `simplePaths a b` models the
paths yielded by that external primitive (each path as its node list, start
first); §4.2 describes it as simple paths of bounded length. -/
def pathCandidates (nodes : List Node) (simplePaths : Node → Node → List (List Node))
    (e1 e2 : Option Str) : List (List Node) :=
  ((nodes.filter (fun a => cypherEq a.name e1)).flatMap (fun a =>
    (nodes.filter (fun b => cypherEq b.name e2)).map (fun b => (a, b)))).flatMap
    (fun ab => simplePaths ab.1 ab.2)

/-- Insertion step of the `ORDER BY length ASC` sort on paths. -/
def insertLenAsc (p : List Node) : List (List Node) → List (List Node)
  | [] => [p]
  | q :: qs => if p.length ≤ q.length then p :: q :: qs else q :: insertLenAsc p qs

def sortLenAsc : List (List Node) → List (List Node)
  | [] => []
  | p :: ps => insertLenAsc p (sortLenAsc ps)

/-- The shortest-path selection of app.py lines 316-318:
`ORDER BY length ASC LIMIT 3`. -/
def chosenPaths (nodes : List Node) (simplePaths : Node → Node → List (List Node))
    (e1 e2 : Option Str) : List (List Node) :=
  (sortLenAsc (pathCandidates nodes simplePaths e1 e2)).take 3

/-- The whole path query, app.py lines 312-323: select the up-to-3 shortest
candidate paths, `UNWIND nodes(path)`, project, `DISTINCT`. -/
def pathQueryRows (nodes : List Node) (simplePaths : Node → Node → List (List Node))
    (e1 e2 : Option Str) : List Row :=
  dedupFirst [] (((chosenPaths nodes simplePaths e1 e2).flatMap id).map nodeRowOf)

/-- The keyword name query, app.py lines 348-354:
`ANY(keyword IN $keywords WHERE toLower(n.name) CONTAINS keyword)`,
projection with `n.file_path as filePath` (no coalesce), `LIMIT 5`. -/
def nameQueryRows (nodes : List Node) (keywords : List Str) : List Row :=
  ((nodes.filter (fun n =>
      match n.name with
      | some nm => keywords.any (fun k => decide (List.IsInfix k (lowStr nm)))
      | none => false)).map (fun n =>
    { name := n.name, type := n.labels.head?, filePath := n.file_path,
      description := n.description, code := n.context_sample })).take 5

/-- The keyword description query, app.py lines 368-373: same shape, over
`toLower(n.description)`. -/
def descQueryRows (nodes : List Node) (keywords : List Str) : List Row :=
  ((nodes.filter (fun n =>
      match n.description with
      | some d => keywords.any (fun k => decide (List.IsInfix k (lowStr d)))
      | none => false)).map (fun n =>
    { name := n.name, type := n.labels.head?, filePath := n.file_path,
      description := n.description, code := n.context_sample })).take 5

/-- The fourteen file-kind labels of the file-context query (app.py 402-404). -/
def fileKindLabels : List Str :=
  ["File".data, "SourceFile".data, "PythonModule".data, "JavaScriptModule".data,
   "CobolProgram".data, "SasProgram".data, "JclJob".data, "FlinkJob".data,
   "DataFile".data, "CppFile".data, "FortranProgram".data, "PliProgram".data,
   "AssemblyFile".data, "RpgProgram".data]

/-- Row of the file-context query, app.py line 406:
`COALESCE(f.path, f.file_path) as path, f.repo_id as repoId,
labels(f) as fileLabels`. -/
structure FileRow where
  path : Option Str
  repoId : Option Str
  fileLabels : List Str
deriving DecidableEq

/-- The file-context query, app.py lines 400-406: nodes bearing one of the
file-kind labels whose `path` or `file_path` is among the collected paths. -/
def fileInfoRows (nodes : List Node) (fps : List Str) : List FileRow :=
  (nodes.filter (fun f =>
      (fileKindLabels.any (fun l => hasLabel f l))
      && (optIn f.path fps || optIn f.file_path fps))).map (fun f =>
    { path := match f.path with | some p => some p | none => f.file_path,
      repoId := f.repo_id, fileLabels := f.labels })

/-- Row of the per-file child query, app.py line 426. -/
structure ChildRow where
  name : Option Str
  type : Option Str
deriving DecidableEq

/-- The per-file child query, app.py lines 423-428:
`MATCH (f)-[:CONTAINS]->(e) WHERE f.path = $path OR f.file_path = $path`,
project name and first label, `LIMIT 8`.  `containsEdges` is the list of
CONTAINS relationships of the graph. -/
def childRows (containsEdges : List (Node × Node)) (p : Option Str) : List ChildRow :=
  ((containsEdges.filter (fun pr =>
      cypherEq pr.1.path p || cypherEq pr.1.file_path p)).map (fun pr =>
    { name := pr.2.name, type := pr.2.labels.head? })).take 8

/-! Rendering of evidence sentences.  Each stage appends Python f-strings to
the `context` list; we reproduce them character for character.  A null
`type` would make `entity_type.lower()` raise in Python; the model renders
it as `none` instead — the data model (§3) gives every entity a type label,
and no theorem below depends on unlabelled nodes. -/

/-- Python `str.replace(pat, sub)` with a non-empty pattern: replace every
non-overlapping occurrence, left to right.  An empty pattern leaves the
string unchanged (the program only uses non-empty patterns). -/
def replaceStr (s pat sub : Str) : Str :=
  match s with
  | [] => []
  | c :: cs =>
    if h : pat ≠ [] ∧ pat.isPrefixOf (c :: cs) = true then
      sub ++ replaceStr ((c :: cs).drop pat.length) pat sub
    else
      c :: replaceStr cs pat sub
termination_by s.length
decreasing_by
  · rw [List.length_drop]
    exact Nat.sub_lt (by simp) (List.length_pos.mpr h.1)
  · simp

/-- The optional fenced code block appended when `code_sample` is truthy. -/
def codeSuffix (r : Row) : Str :=
  if truthyO r.code then
    "\nCode:\n```\n".data ++ pyStr r.code ++ "\n```".data
  else []

/-- Stage-1 sentence, app.py lines 268/270. -/
def entityLine (r : Row) : Str :=
  "In file '".data ++ pyStr r.filePath ++ "', there is a ".data
    ++ lowStr (pyStr r.type) ++ " called '".data ++ pyStr r.name ++ "'. ".data
    ++ pyStr r.description ++ codeSuffix r

/-- Stage-2 sentence, app.py lines 304/306. -/
def travLine (r : Row) : Str := "Via graph traversal: ".data ++ entityLine r

/-- Stage-3 sentence, app.py lines 336/338. -/
def pathLine (r : Row) : Str := "Via path connection: ".data ++ entityLine r

/-- Keyword-by-name sentence, app.py lines 363/365. -/
def kwNameLine (r : Row) : Str :=
  "Found a ".data ++ lowStr (pyStr r.type) ++ " named '".data ++ pyStr r.name
    ++ "' in '".data ++ pyStr r.filePath ++ "' that matches your query. ".data
    ++ pyStr r.description ++ codeSuffix r

/-- Keyword-by-description sentence, app.py lines 383/385. -/
def kwDescLine (r : Row) : Str :=
  "The ".data ++ lowStr (pyStr r.type) ++ " '".data ++ pyStr r.name
    ++ "' in '".data ++ pyStr r.filePath ++ "' appears relevant to your question. ".data
    ++ pyStr r.description ++ codeSuffix r

/-- File-type derivation, app.py lines 413-417: the first label other than
`File`, with the generic suffix words removed; `file` when no such label. -/
def fileTypeOf (ls : List Str) : Str :=
  match ls.find? (fun l => decide (l ≠ fileLabel)) with
  | some l =>
    replaceStr (replaceStr (replaceStr (replaceStr l fileLabel [])
      ("Program".data) []) ("Module".data) []) ("Job".data) []
  | none => "file".data

/-- File summary sentence, app.py line 420. -/
def fileSummaryLine (fr : FileRow) : Str :=
  "The ".data ++ lowStr (fileTypeOf fr.fileLabels) ++ " file '".data
    ++ pyStr fr.path ++ "' is part of repository '".data ++ pyStr fr.repoId
    ++ "'.".data

/-- Per-child fragments, app.py lines 432-437: children with a truthy name
render as `type 'name'`. -/
def childInfos (kids : List ChildRow) : List Str :=
  kids.filterMap (fun e =>
    if truthyO e.name then
      some (lowStr (pyStr e.type) ++ " '".data ++ pyStr e.name ++ "'".data)
    else none)

/-- File-contents sentence, app.py lines 440-441. -/
def containsLine (fr : FileRow) (infos : List Str) : Str :=
  "The file '".data ++ pyStr fr.path ++ "' contains: ".data
    ++ List.intercalate ", ".data infos ++ ".".data

/-! The Neo4j session, modelled as the graph content plus, per query, a flag
saying whether running that query raises (`Neo4jError` or other).  The
vector indexes and the two apoc primitives are external collaborators
(§§1, 4.2) and appear as oracles: `funcIndex`/`fileIndex` give the
`(node, score)` candidates the index yields for the query embedding,
`reach` the nodes reached by `apoc.path.expandConfig` from a start node,
`simplePaths` the paths yielded by `apoc.algo.allSimplePaths`. -/

structure Session where
  nodes : List Node
  containsEdges : List (Node × Node)
  funcIndex : List ℚ → List Cand
  fileIndex : List ℚ → List Cand
  reach : Node → List Node
  simplePaths : Node → Node → List (List Node)
  funcFails : Bool
  fileFails : Bool
  travFails : Bool
  pathFails : Bool
  nameFails : Bool
  descFails : Bool
  fileInfoFails : Bool
  childFails : Option Str → Bool

def runFuncQ (s : Session) (qe : List ℚ) : Except Unit (List VRow) :=
  if s.funcFails then .error () else .ok (functionQueryRows (s.funcIndex qe))

def runFileQ (s : Session) (qe : List ℚ) : Except Unit (List VRow) :=
  if s.fileFails then .error () else .ok (fileQueryRows (s.fileIndex qe))

def runTravQ (s : Session) (eids : List Str) : Except Unit (List Row) :=
  if s.travFails then .error () else .ok (traversalRows s.nodes s.reach eids)

def runPathQ (s : Session) (e1 e2 : Option Str) : Except Unit (List Row) :=
  if s.pathFails then .error () else .ok (pathQueryRows s.nodes s.simplePaths e1 e2)

def runNameQ (s : Session) (kws : List Str) : Except Unit (List Row) :=
  if s.nameFails then .error () else .ok (nameQueryRows s.nodes kws)

def runDescQ (s : Session) (kws : List Str) : Except Unit (List Row) :=
  if s.descFails then .error () else .ok (descQueryRows s.nodes kws)

def runFileInfoQ (s : Session) (fps : List Str) : Except Unit (List FileRow) :=
  if s.fileInfoFails then .error () else .ok (fileInfoRows s.nodes fps)

def runChildQ (s : Session) (p : Option Str) : Except Unit (List ChildRow) :=
  if s.childFails p then .error () else .ok (childRows s.containsEdges p)

/-- A raised query error becomes an `Except` error carrying the `context`
list accumulated so far, mirroring the single try/except of app.py lines
232-446: the except block keeps the partial `context`. -/
def liftQ {α} (q : Except Unit α) (ctx : List Str) : Except (List Str) α :=
  match q with
  | .ok a => .ok a
  | .error _ => .error ctx

/-- Stage 3 of app.py (lines 309-338): runs only when at least two merged
vector results exist; passes `res['name']` of the first two results. -/
def pathStage (s : Session) (entity_results : List VRow) (ctx : List Str) :
    Except (List Str) (List Str) :=
  if 2 ≤ entity_results.length then do
    let prs ← liftQ (runPathQ s ((entity_results.get? 0).bind (fun r => r.name))
      ((entity_results.get? 1).bind (fun r => r.name))) ctx
    pure (ctx ++ prs.map pathLine)
  else pure ctx

/-- Stage-5 per-file loop, app.py lines 411-441: the summary sentence is
appended before the child query runs, so a child-query error keeps it. -/
def stage5Loop (s : Session) : List FileRow → List Str → Except (List Str) (List Str)
  | [], ctx => .ok ctx
  | fr :: rest, ctx =>
    let ctx1 := ctx ++ [fileSummaryLine fr]
    match liftQ (runChildQ s fr.path) ctx1 with
    | .error c => .error c
    | .ok kids =>
      let ctx2 :=
        if kids = [] then ctx1
        else
          let infos := childInfos kids
          if infos = [] then ctx1 else ctx1 ++ [containsLine fr infos]
      stage5Loop s rest ctx2

/-- The merged vector-stage result list, app.py line 257:
`entity_results = function_results + file_results`. -/
def entityResultsOf (s : Session) (qe : List ℚ) : List VRow :=
  functionQueryRows (s.funcIndex qe) ++ fileQueryRows (s.fileIndex qe)

/-- The body of the try block of `retrieve_graph_context`, app.py lines
232-441.  The `Except` error case is the caught exception, carrying the
partial `context`. -/
def tryBody (s : Session) (qe : List ℚ) (uq : Str) : Except (List Str) (List Str) := do
  let function_results ← liftQ (runFuncQ s qe) []
  let file_results ← liftQ (runFileQ s qe) []
  let entity_results := function_results ++ file_results
  let entity_ids := entity_results.map entityIdOf
  let ctx1 := entity_results.map (fun r => entityLine r.toRow)
  let ctx2 ← if entity_results = [] then pure ctx1 else do
    let trs ← liftQ (runTravQ s entity_ids) ctx1
    pure (ctx1 ++ trs.map travLine)
  let ctx3 ← pathStage s entity_results ctx2
  let keywords := extractKeywords uq
  let ctx5 ← if keywords = [] then pure ctx3 else do
    let nrs ← liftQ (runNameQ s keywords) ctx3
    let ctx4 := ctx3 ++ nrs.map kwNameLine
    let drs ← liftQ (runDescQ s keywords) ctx4
    pure (ctx4 ++ drs.map kwDescLine)
  if entity_results = [] then pure ctx5 else do
    let file_paths := dedupFirst [] (entity_results.filterMap (fun r =>
      match r.filePath with
      | some p => if p = [] then none else some p
      | none => none))
    if file_paths = [] then pure ctx5 else do
      let frs ← liftQ (runFileInfoQ s file_paths) ctx5
      stage5Loop s frs ctx5

def noContextMsg : Str := "No specific context found in the graph.".data

/-- The `context` list after the try/except: the full list on success, the
partial list when a query raised. -/
def collectedContext (s : Session) (qe : List ℚ) (uq : Str) : List Str :=
  match tryBody s qe uq with
  | .ok c => c
  | .error c => c

/-- The function `retrieve_graph_context` of app.py lines 226-451: run the
five stages under one try/except, then return the sentinel for an empty
`context` and the newline join otherwise. -/
def retrieve_graph_context (s : Session) (qe : List ℚ) (uq : Str) : Str :=
  let ctx := collectedContext s qe uq
  if ctx = [] then noContextMsg else List.intercalate "\n".data ctx

/-! The embedding helper and the HTTP endpoints. -/

/-- Exceptions that can escape a call into a Google library: a
`GoogleAPIError` (which has its own Flask error handler) or anything else
(caught by the catch-all handler). -/
inductive PyErr where
  | googleApi
  | generic
deriving DecidableEq

/-- The helper `generate_embeddings` of app.py lines 214-224.  `provider`
is the external `embedding_model.get_embeddings` call; the second component
records whether it was invoked.  `if not text:` short-circuits exactly on a
falsy (empty) string and returns the empty list; a provider exception is
re-raised. -/
def generate_embeddings (provider : Str → Except PyErr (List ℚ)) (text : Str) :
    Except PyErr (List ℚ) × Bool :=
  if text = [] then (.ok [], false)
  else
    match provider text with
    | .ok v => (.ok v, true)
    | .error e => (.error e, true)

/-- A blank string in the sense of §4.1: whitespace-only (and, taken
together with the empty string, "empty/blank"). -/
def isBlank (t : Str) : Bool := decide (t ≠ []) && t.all (fun c => c.isWhitespace)

/-- Response bodies the service can produce, one constructor per JSON shape:
`chatOk` is `\x7bresponse, context_used\x7d`, `chatMissingQuery` the literal
`\x7b"response": "Please provide a query."\x7d`, `chatEmbedEmpty` the
embedding-failure body of app.py lines 472-475, `envelope` the generic
`\x7bstatus, message, error_type\x7d` of the Flask error handlers,
`healthStatus` the `\x7bstatus, message\x7d` of /healthz, and `clearBody`
the `\x7bsuccess, message\x7d` of /api/clear-database. -/
inductive RespBody where
  | chatOk (response context_used : Str)
  | chatMissingQuery
  | chatEmbedEmpty
  | envelope (status : ℕ) (message error_type : Str)
  | healthStatus (status message : Str)
  | clearBody (success : Bool) (message : Str)
deriving DecidableEq

/-- The `ConnectionError` handler body, app.py lines 184-191. -/
def dbErrorEnvelope : RespBody :=
  .envelope 500
    "Internal Server Error: Could not connect to the database. Please try again later.".data
    "DatabaseConnectionError".data

/-- The `GoogleAPIError` handler body, app.py lines 193-200; the message
interpolates the provider-reported reason. -/
def googleErrorEnvelope (reasonMsg : Str) : RespBody :=
  .envelope 500 reasonMsg "GoogleAPIError".data

/-- The catch-all handler body, app.py lines 202-210. -/
def genericErrorEnvelope : RespBody :=
  .envelope 500
    "Internal Server Error: An unexpected error occurred. Please try again or contact support.".data
    "InternalServerError".data

/-- External collaborators of the /api/chat endpoint: the Neo4j connection,
the embedding provider, the graph session, and the generative model (applied
to the retrieved context; prompt assembly adds only fixed text and history
around it). -/
structure ChatDeps where
  connectOk : Bool
  provider : Str → Except PyErr (List ℚ)
  s : Session
  genResult : Str → Except PyErr Str
  googleReason : Str

/-- The /api/chat endpoint, app.py lines 454-549, composed with the global
error handlers: a missing or falsy `query` returns the bespoke 400 body; a
connection failure, a provider exception or a generative-model exception is
re-raised into the matching handler's envelope; an empty embedding returns
the bespoke 500 body; otherwise the happy-path body. -/
def chat_with_graph (d : ChatDeps) (query : Option Str) : RespBody × ℕ :=
  match query with
  | none => (.chatMissingQuery, 400)
  | some q =>
    if q = [] then (.chatMissingQuery, 400)
    else if ¬ d.connectOk then (dbErrorEnvelope, 500)
    else
      match (generate_embeddings d.provider q).1 with
      | .error .googleApi => (googleErrorEnvelope d.googleReason, 500)
      | .error .generic => (genericErrorEnvelope, 500)
      | .ok emb =>
        if emb = [] then (.chatEmbedEmpty, 500)
        else
          let ctx := retrieve_graph_context d.s emb q
          match d.genResult ctx with
          | .ok txt => (.chatOk txt ctx, 200)
          | .error .googleApi => (googleErrorEnvelope d.googleReason, 500)
          | .error .generic => (genericErrorEnvelope, 500)

/-- Outcomes of the /healthz dependency probes, app.py lines 551-579. -/
inductive HealthScenario where
  | allOk
  | connFail (e : Str)
  | verifyFail (e : Str)
  | embedFail (e : Str)
deriving DecidableEq

/-- The /healthz endpoint, app.py lines 551-579. -/
def health_check : HealthScenario → RespBody × ℕ
  | .allOk =>
    (.healthStatus "OK".data "Service is healthy and connected to dependencies.".data, 200)
  | .connFail e =>
    (.healthStatus "ERROR".data ("Neo4j database connection failed: ".data ++ e), 503)
  | .verifyFail e =>
    (.healthStatus "ERROR".data ("Unexpected health check error: ".data ++ e), 500)
  | .embedFail e =>
    (.healthStatus "ERROR".data ("Vertex AI embeddings service unavailable: ".data ++ e), 503)

/-- Outcomes of the /api/clear-database body, app.py lines 581-621. -/
inductive ClearScenario where
  | allOk
  | connFail
  | neo4jErr (e : Str)
  | otherErr (e : Str)
deriving DecidableEq

/-- The /api/clear-database endpoint, app.py lines 581-621: a
`ConnectionError` is re-raised into its handler; Neo4j and unexpected errors
return the bespoke `\x7bsuccess: false, message\x7d` body. -/
def clear_database : ClearScenario → RespBody × ℕ
  | .allOk => (.clearBody true "Database cleared successfully".data, 200)
  | .connFail => (dbErrorEnvelope, 500)
  | .neo4jErr e => (.clearBody false ("Database error: ".data ++ e), 500)
  | .otherErr e => (.clearBody false ("Unexpected error: ".data ++ e), 500)

/-- Shape test: the generic error envelope. -/
def isEnvelopeShape : RespBody → Bool
  | .envelope _ _ _ => true
  | _ => false

/-- Shape test: a successful chat body whose retrieved context is the
no-context sentinel. -/
def isSentinelOkShape : RespBody → Bool
  | .chatOk _ cu => decide (cu = noContextMsg)
  | _ => false

/-- A response is non-happy-path when its status is not 200 or when it is a
success carrying the no-context sentinel. -/
def nonHappy (p : RespBody × ℕ) : Bool := decide (p.2 ≠ 200) || isSentinelOkShape p.1

/-! Concrete instances used to evaluate the model on explicit inputs. -/

/-- A node with no labels and no properties. -/
def blankNode : Node :=
  { labels := [], name := none, file_path := none, path := none,
    description := none, context_sample := none, repo_id := none }

/-- A session over the empty graph where every query succeeds. -/
def sess0 : Session :=
  { nodes := [], containsEdges := [],
    funcIndex := fun _ => [], fileIndex := fun _ => [],
    reach := fun _ => [], simplePaths := fun _ _ => [],
    funcFails := false, fileFails := false, travFails := false, pathFails := false,
    nameFails := false, descFails := false, fileInfoFails := false,
    childFails := fun _ => false }

/-- A function node whose name the keyword stage would match. -/
def kwNodeC1 : Node := { blankNode with labels := [funcLabel], name := some "parsecfg".data }

/-- A session whose function-index vector query raises while the keyword
name query would return a hit. -/
def sessC1 : Session := { sess0 with funcFails := true, nodes := [kwNodeC1] }

def uqC1 : Str := "parsecfg".data

/-- A function node surfaced by the function index. -/
def nodeW1 : Node :=
  { blankNode with labels := [funcLabel], name := some "f".data, file_path := some "p".data }

def candW1 : Cand := { node := nodeW1, score := (7 / 10 : ℚ) }

/-- A session with one vector hit whose traversal query raises. -/
def sessW1 : Session := { sess0 with funcIndex := fun _ => [candW1], travFails := true }

/-- A session over the empty graph whose function vector query raises. -/
def sessW1a : Session := { sess0 with funcFails := true }

/-- A function node whose name itself contains a dash. -/
def nodeC2a : Node :=
  { blankNode with labels := [funcLabel], name := some "a-b".data, file_path := some "c".data }

/-- A distinct function node that the dash-decoded identity happens to match. -/
def nodeC2b : Node :=
  { blankNode with labels := [funcLabel], name := some "a".data, file_path := some "b".data }

/-- The vector-stage seed row for `nodeC2a`. -/
def seedC2 : VRow :=
  { name := some "a-b".data, type := some funcLabel, filePath := some "c".data,
    description := none, code := none, score := 1 }

/-- A seed row with dash-free name and file path. -/
def seedW2 : VRow :=
  { name := some "f".data, type := some funcLabel, filePath := some "p".data,
    description := none, code := none, score := 1 }

def nodeC6a : Node :=
  { blankNode with labels := [funcLabel], name := some "a".data, file_path := some "p".data }

def nodeC6b : Node :=
  { blankNode with labels := [funcLabel], name := some "b".data, file_path := some "p".data }

def nodesC6 : List Node := [nodeC6a, nodeC6b]

/-- An expansion oracle under which seed `nodeC6a` reaches seed `nodeC6b`. -/
def reachC6 : Node → List Node := fun n => if n = nodeC6a then [nodeC6b] else []

def eidsC6 : List Str := ["a-p".data, "b-p".data]

def nodeC5a0 : Node :=
  { blankNode with labels := [funcLabel], name := some "X".data, file_path := some "p1".data }

def nodeC5a1 : Node :=
  { blankNode with labels := [funcLabel], name := some "X".data, file_path := some "p2".data }

def nodeC5b : Node :=
  { blankNode with labels := [funcLabel], name := some "Y".data, file_path := some "q".data }

/-- A path oracle with a single path, between `nodeC5a1` (which shares the
top seed's name but not its file path) and `nodeC5b`. -/
def spC5 : Node → Node → List (List Node) :=
  fun x y => if x = nodeC5a1 ∧ y = nodeC5b then [[nodeC5a1, nodeC5b]] else []

def sessC5 : Session :=
  { sess0 with nodes := [nodeC5a0, nodeC5a1, nodeC5b], simplePaths := spC5 }

/-- The two top vector results: the entities `(X, p1)` and `(Y, q)`. -/
def erC5 : List VRow :=
  [{ name := some "X".data, type := some funcLabel, filePath := some "p1".data,
     description := none, code := none, score := (9 / 10 : ℚ) },
   { name := some "Y".data, type := some funcLabel, filePath := some "q".data,
     description := none, code := none, score := (8 / 10 : ℚ) }]

/-- An embedding provider that succeeds with some vector. -/
def provC8 : Str → Except PyErr (List ℚ) := fun _ => .ok [1]

/-- Chat dependencies where every collaborator succeeds. -/
def depsC9 : ChatDeps :=
  { connectOk := true, provider := provC8, s := sess0,
    genResult := fun _ => .ok "ok".data, googleReason := [] }

/-- A high-scoring function-index candidate whose node has no `file_path`. -/
def candC10 : Cand :=
  { node := { blankNode with labels := [funcLabel], name := some "g".data },
    score := (9 / 10 : ℚ) }

/-! Character-level lemmas about `Char.toLower` (the model of Python ASCII
case folding) and `Char.isWhitespace`. -/

theorem toNat_ofNat_valid (m : Nat) (h : m.isValidChar) : (Char.ofNat m).toNat = m := by
  simp [Char.ofNat, dif_pos h, Char.ofNatAux, Char.toNat]
  rfl

theorem char_eq_iff_toNat (a b : Char) : a = b ↔ a.toNat = b.toNat := by
  constructor
  · intro h; rw [h]
  · intro h
    have h2 := congrArg Char.ofNat h
    rwa [Char.ofNat_toNat, Char.ofNat_toNat] at h2

theorem toLower_eq_of_not (c : Char) (h : ¬ (c.toNat ≥ 65 ∧ c.toNat ≤ 90)) :
    Char.toLower c = c := by
  rw [Char.toLower]
  simp only [ge_iff_le]
  rw [if_neg]
  intro hc
  exact h ⟨hc.1, hc.2⟩

theorem toLower_eq_of_upper (c : Char) (h : c.toNat ≥ 65 ∧ c.toNat ≤ 90) :
    Char.toLower c = Char.ofNat (c.toNat + 32) := by
  rw [Char.toLower]
  simp only [ge_iff_le]
  rw [if_pos]
  exact ⟨h.1, h.2⟩

theorem valid_of_lt (m : Nat) (h : m < 55296) : m.isValidChar := Or.inl h

theorem toLower_idem (c : Char) : Char.toLower (Char.toLower c) = Char.toLower c := by
  by_cases h : c.toNat ≥ 65 ∧ c.toNat ≤ 90
  · rw [toLower_eq_of_upper c h]
    apply toLower_eq_of_not
    rw [toNat_ofNat_valid _ (valid_of_lt _ (by omega))]
    omega
  · rw [toLower_eq_of_not c h]
    exact toLower_eq_of_not c h

theorem ws_false_of_ge (d : Char) (h1 : 65 ≤ d.toNat) : d.isWhitespace = false := by
  simp only [Char.isWhitespace]
  have hlt : ∀ w : Char, w.toNat < 65 → decide (d = w) = false := by
    intro w hw
    apply decide_eq_false
    intro he
    rw [char_eq_iff_toNat] at he
    omega
  rw [hlt ' ' (by decide), hlt '\t' (by decide), hlt '\x0d' (by decide), hlt '\n' (by decide)]
  rfl

theorem isWhitespace_toLower (c : Char) :
    (Char.toLower c).isWhitespace = c.isWhitespace := by
  by_cases h : c.toNat ≥ 65 ∧ c.toNat ≤ 90
  · rw [toLower_eq_of_upper c h]
    rw [ws_false_of_ge _ (by rw [toNat_ofNat_valid _ (valid_of_lt _ (by omega))]; omega)]
    rw [ws_false_of_ge _ (by omega)]
  · rw [toLower_eq_of_not c h]

theorem length_lowStr (w : Str) : (lowStr w).length = w.length := by
  simp [lowStr]

theorem lowStr_idem (w : Str) : lowStr (lowStr w) = lowStr w := by
  simp only [lowStr, List.map_map]
  exact List.map_congr_left (fun c _ => toLower_idem c)

/-! Lemmas about `splitWs`, the model of Python `str.split()`. -/

theorem splitWsAux_nonws_run (t : Str) :
    ∀ (r cur : Str), (∀ c ∈ t, c.isWhitespace = false) →
      splitWsAux cur (t ++ r) = splitWsAux (t.reverse ++ cur) r := by
  induction t with
  | nil => intro r cur _; simp
  | cons c cs ih =>
    intro r cur h
    have hc : c.isWhitespace = false := h c (by simp)
    simp only [List.cons_append, splitWsAux, hc, Bool.false_eq_true, if_false]
    have hstep : splitWsAux (c :: cur) (cs ++ r) = splitWsAux (cs.reverse ++ (c :: cur)) r :=
      ih r (c :: cur) (fun x hx => h x (by simp [hx]))
    rw [show cs.append r = cs ++ r from rfl, hstep]
    simp

theorem splitWsAux_space (cur r : Str) :
    splitWsAux cur (' ' :: r) =
      if cur = [] then splitWsAux [] r else cur.reverse :: splitWsAux [] r := by
  simp [splitWsAux]

theorem splitWsAux_tokens (s : Str) :
    ∀ cur : Str, (∀ c ∈ cur, c.isWhitespace = false) →
      ∀ t ∈ splitWsAux cur s, t ≠ [] ∧ ∀ c ∈ t, c.isWhitespace = false := by
  induction s with
  | nil =>
    intro cur hcur t ht
    simp only [splitWsAux] at ht
    by_cases h : cur = []
    · simp [h] at ht
    · simp [h] at ht
      subst ht
      refine ⟨by simpa using h, ?_⟩
      intro c hc
      exact hcur c (List.mem_reverse.mp hc)
  | cons c cs ih =>
    intro cur hcur t ht
    simp only [splitWsAux] at ht
    by_cases hws : c.isWhitespace
    · rw [if_pos hws] at ht
      by_cases h : cur = []
      · rw [if_pos h] at ht
        exact ih [] (by simp) t ht
      · rw [if_neg h] at ht
        rcases List.mem_cons.mp ht with h1 | h1
        · subst h1
          refine ⟨by simpa using h, ?_⟩
          intro x hx
          exact hcur x (List.mem_reverse.mp hx)
        · exact ih [] (by simp) t h1
    · rw [if_neg hws] at ht
      refine ih (c :: cur) ?_ t ht
      intro x hx
      rcases List.mem_cons.mp hx with h1 | h1
      · subst h1; exact Bool.eq_false_iff.mpr hws
      · exact hcur x h1

theorem splitWs_tokens (s : Str) :
    ∀ t ∈ splitWs s, t ≠ [] ∧ ∀ c ∈ t, c.isWhitespace = false :=
  splitWsAux_tokens s [] (by simp)

theorem splitWsAux_map_low (s : Str) :
    ∀ cur : Str, splitWsAux (lowStr cur) (lowStr s) = (splitWsAux cur s).map lowStr := by
  induction s with
  | nil =>
    intro cur
    simp only [lowStr, List.map_nil, splitWsAux]
    by_cases h : cur = []
    · simp [h]
    · rw [if_neg (by simpa [lowStr] using h), if_neg h]
      simp [lowStr]
  | cons c cs ih =>
    intro cur
    simp only [lowStr, List.map_cons, splitWsAux, isWhitespace_toLower]
    by_cases hws : c.isWhitespace
    · rw [if_pos hws, if_pos hws]
      by_cases h : cur = []
      · rw [if_pos (by simp [lowStr, h]), if_pos h]
        simpa [lowStr] using ih []
      · rw [if_neg (by simpa [lowStr] using h), if_neg h]
        have := ih []
        simp only [lowStr, List.map_nil] at this
        simp [lowStr, this]
    · rw [if_neg hws, if_neg hws]
      have := ih (c :: cur)
      simpa [lowStr] using this

theorem splitWs_lowStr (s : Str) : splitWs (lowStr s) = (splitWs s).map lowStr := by
  have := splitWsAux_map_low s []
  simpa [splitWs, lowStr] using this

theorem splitWs_joinSp (ws : List Str) :
    (∀ t ∈ ws, t ≠ [] ∧ ∀ c ∈ t, c.isWhitespace = false) →
      splitWs (joinSp ws) = ws := by
  induction ws with
  | nil => intro _; rfl
  | cons w ws ih =>
    intro h
    have hw := h w (by simp)
    cases ws with
    | nil =>
      show splitWsAux [] (joinSp [w]) = [w]
      have : joinSp [w] = w ++ [] := by simp [joinSp]
      rw [this, splitWsAux_nonws_run w [] [] hw.2]
      simp only [splitWsAux, List.append_nil]
      rw [if_neg (by simpa using hw.1)]
      simp
    | cons v rest =>
      show splitWsAux [] (joinSp (w :: v :: rest)) = w :: v :: rest
      have hj : joinSp (w :: v :: rest) = w ++ (' ' :: joinSp (v :: rest)) := by
        simp [joinSp]
      rw [hj, splitWsAux_nonws_run w _ [] hw.2]
      simp only [List.append_nil]
      rw [splitWsAux_space]
      rw [if_neg (by simpa using hw.1)]
      have ht : splitWsAux [] (joinSp (v :: rest)) = v :: rest :=
        ih (fun t htm => h t (by simp [htm]))
      simp [ht]

/-! Lemmas about keyword extraction. -/

theorem extract_list_spec (l : List Str) :
    ((l.filter (fun w => decide (2 < w.length))).map lowStr).filter
        (fun w => decide (w ∉ stopWords)) =
      (l.map lowStr).filter
        (fun w => decide (2 < w.length) && decide (w ∉ stopWords)) := by
  induction l with
  | nil => rfl
  | cons w l ih =>
    by_cases hlen : 2 < w.length
    · by_cases hstop : lowStr w ∈ stopWords
      · simp only [List.filter_cons, List.map_cons]
        rw [if_pos (by simpa using hlen)]
        simp only [List.map_cons, List.filter_cons]
        rw [if_neg (by simp [hstop])]
        rw [if_neg (by simp [hstop, length_lowStr, hlen])]
        exact ih
      · simp only [List.filter_cons, List.map_cons]
        rw [if_pos (by simpa using hlen)]
        simp only [List.map_cons, List.filter_cons]
        rw [if_pos (by simp [hstop])]
        rw [if_pos (by simp [hstop, length_lowStr, hlen])]
        rw [ih]
    · simp only [List.filter_cons, List.map_cons]
      rw [if_neg (by simpa using hlen)]
      rw [if_neg (by simp [length_lowStr]; omega)]
      exact ih

theorem extract_list_stop (l : List Str) :
    ((l.filter (fun w => decide (2 < w.length))).map lowStr).filter
        (fun w => decide (w ∉ stopWords)) =
      ((l.filter (fun w => !(isStopTok w))).filter
        (fun w => decide (2 < w.length))).map lowStr := by
  induction l with
  | nil => rfl
  | cons w l ih =>
    by_cases hlen : 2 < w.length
    · by_cases hstop : lowStr w ∈ stopWords
      · simp only [List.filter_cons, List.map_cons]
        rw [if_pos (by simpa using hlen)]
        simp only [List.map_cons, List.filter_cons]
        rw [if_neg (by simp [hstop])]
        rw [if_neg (by simp [isStopTok, hstop])]
        exact ih
      · simp only [List.filter_cons, List.map_cons]
        rw [if_pos (by simpa using hlen)]
        simp only [List.map_cons, List.filter_cons]
        rw [if_pos (by simp [hstop])]
        rw [if_pos (by simp [isStopTok, hstop])]
        simp only [List.filter_cons]
        rw [if_pos (by simpa using hlen)]
        simp only [List.map_cons]
        rw [ih]
    · by_cases hstop : lowStr w ∈ stopWords
      · simp only [List.filter_cons]
        rw [if_neg (by simpa using hlen)]
        rw [if_neg (by simp [isStopTok, hstop])]
        exact ih
      · simp only [List.filter_cons]
        rw [if_neg (by simpa using hlen)]
        rw [if_pos (by simp [isStopTok, hstop])]
        simp only [List.filter_cons]
        rw [if_neg (by simpa using hlen)]
        exact ih

theorem extractKeywords_rep (q : Str) :
    extractKeywords q =
      ((splitWs q).map lowStr).filter
        (fun w => decide (2 < w.length) && decide (w ∉ stopWords)) :=
  extract_list_spec (splitWs q)

theorem extractKeywords_rep_stop (q : Str) :
    extractKeywords q =
      (((splitWs q).filter (fun w => !(isStopTok w))).filter
        (fun w => decide (2 < w.length))).map lowStr :=
  extract_list_stop (splitWs q)

theorem extractKeywords_mem (q : Str) (k : Str) (hk : k ∈ extractKeywords q) :
    2 < k.length ∧ lowStr k = k ∧ k ∉ stopWords ∧ k ≠ [] ∧
      ∀ c ∈ k, c.isWhitespace = false := by
  rw [extractKeywords_rep] at hk
  rcases List.mem_filter.mp hk with ⟨hmem, hcond⟩
  rcases List.mem_map.mp hmem with ⟨w, hw, hwk⟩
  have hlen : 2 < k.length := by
    have := (Bool.and_eq_true _ _).mp hcond
    exact of_decide_eq_true this.1
  have hstop : k ∉ stopWords := by
    have := (Bool.and_eq_true _ _).mp hcond
    exact of_decide_eq_true this.2
  have hlow : lowStr k = k := by rw [← hwk]; exact lowStr_idem w
  have htok := splitWs_tokens q w hw
  have hws : ∀ c ∈ k, c.isWhitespace = false := by
    intro c hc
    rw [← hwk] at hc
    rcases List.mem_map.mp hc with ⟨c', hc', hcc⟩
    rw [← hcc, isWhitespace_toLower]
    exact htok.2 c' hc'
  exact ⟨hlen, hlow, hstop, by intro hnil; rw [hnil] at hlen; simp at hlen, hws⟩

/-- C7: the keyword-extraction step maps every query to the set of its
lowercased whitespace-separated tokens longer than 2 characters minus the
fixed stop-word set; two queries that agree after lowercasing, or that agree
on their non-stop-word tokens, yield the same keywords; and applying the
extraction to its own (space-joined) output changes nothing. -/
theorem C7_keyword_extraction :
    (∀ q : Str, (extractKeywords q).toFinset = keywordSpecSet q) ∧
    (∀ q1 q2 : Str, lowStr q1 = lowStr q2 → extractKeywords q1 = extractKeywords q2) ∧
    (∀ q1 q2 : Str,
      (splitWs q1).filter (fun w => !(isStopTok w)) =
        (splitWs q2).filter (fun w => !(isStopTok w)) →
      extractKeywords q1 = extractKeywords q2) ∧
    (∀ q : Str, extractKeywords (joinSp (extractKeywords q)) = extractKeywords q) := by
  refine ⟨?_, ?_, ?_, ?_⟩
  · intro q
    rw [keywordSpecSet, extractKeywords_rep]
  · intro q1 q2 h
    rw [extractKeywords_rep, extractKeywords_rep, ← splitWs_lowStr, ← splitWs_lowStr, h]
  · intro q1 q2 h
    rw [extractKeywords_rep_stop, extractKeywords_rep_stop, h]
  · intro q
    have hmem := fun k hk => extractKeywords_mem q k hk
    have htoks : ∀ t ∈ extractKeywords q, t ≠ [] ∧ ∀ c ∈ t, c.isWhitespace = false :=
      fun t ht => ⟨(hmem t ht).2.2.2.1, (hmem t ht).2.2.2.2⟩
    have hsplit := splitWs_joinSp _ htoks
    have hunfold : extractKeywords (joinSp (extractKeywords q)) =
        (((splitWs (joinSp (extractKeywords q))).filter
          (fun w => decide (2 < w.length))).map lowStr).filter
            (fun w => decide (w ∉ stopWords)) := rfl
    rw [hunfold, hsplit]
    rw [List.filter_eq_self.mpr (fun k hk => decide_eq_true ((hmem k hk).1))]
    rw [(List.map_congr_left (fun k hk => (hmem k hk).2.1)).trans (List.map_id _)]
    exact List.filter_eq_self.mpr (fun k hk => decide_eq_true ((hmem k hk).2.2.1))

/-- Witness for C7: concrete queries differing in case and in stop words. -/
theorem C7_keyword_extraction_w :
    extractKeywords ("AbCd".data) = extractKeywords ("abcd".data) ∧
    extractKeywords ("the dog".data) = extractKeywords ("dog".data) ∧
    extractKeywords (joinSp (extractKeywords ("How does Main work".data))) =
      extractKeywords ("How does Main work".data) :=
  ⟨C7_keyword_extraction.2.1 _ _ (by decide),
   C7_keyword_extraction.2.2.1 _ _ (by decide),
   C7_keyword_extraction.2.2.2 _⟩

/-! Lemmas about the two insertion sorts. -/

theorem mem_insertScoreDesc (r x : VRow) (l : List VRow) :
    x ∈ insertScoreDesc r l ↔ x = r ∨ x ∈ l := by
  induction l with
  | nil => simp [insertScoreDesc]
  | cons y ys ih =>
    simp only [insertScoreDesc]
    by_cases h : y.score < r.score
    · simp [h]
    · rw [if_neg h]
      simp [ih]
      tauto

theorem sorted_insertScoreDesc (r : VRow) (l : List VRow)
    (h : List.Sorted (fun a b : VRow => b.score ≤ a.score) l) :
    List.Sorted (fun a b : VRow => b.score ≤ a.score) (insertScoreDesc r l) := by
  induction l with
  | nil => simp [insertScoreDesc]
  | cons y ys ih =>
    rcases List.sorted_cons.mp h with ⟨hy, hys⟩
    simp only [insertScoreDesc]
    by_cases hc : y.score < r.score
    · rw [if_pos hc]
      refine List.sorted_cons.mpr ⟨?_, h⟩
      intro b hb
      rcases List.mem_cons.mp hb with h1 | h1
      · rw [h1]; exact le_of_lt hc
      · exact le_trans (hy b h1) (le_of_lt hc)
    · rw [if_neg hc]
      refine List.sorted_cons.mpr ⟨?_, ih hys⟩
      intro b hb
      rcases (mem_insertScoreDesc r b ys).mp hb with h1 | h1
      · rw [h1]; exact le_of_not_lt hc
      · exact hy b h1

theorem mem_sortScoreDesc (x : VRow) (l : List VRow) :
    x ∈ sortScoreDesc l ↔ x ∈ l := by
  induction l with
  | nil => simp [sortScoreDesc]
  | cons y ys ih =>
    simp only [sortScoreDesc]
    rw [mem_insertScoreDesc]
    simp [ih]

theorem sorted_sortScoreDesc (l : List VRow) :
    List.Sorted (fun a b : VRow => b.score ≤ a.score) (sortScoreDesc l) := by
  induction l with
  | nil => simp [sortScoreDesc]
  | cons y ys ih => exact sorted_insertScoreDesc y (sortScoreDesc ys) ih

theorem mem_insertLenAsc (p x : List Node) (l : List (List Node)) :
    x ∈ insertLenAsc p l ↔ x = p ∨ x ∈ l := by
  induction l with
  | nil => simp [insertLenAsc]
  | cons q qs ih =>
    simp only [insertLenAsc]
    by_cases h : p.length ≤ q.length
    · simp [h]
    · rw [if_neg h]
      simp [ih]
      tauto

theorem sorted_insertLenAsc (p : List Node) (l : List (List Node))
    (h : List.Sorted (fun a b : List Node => a.length ≤ b.length) l) :
    List.Sorted (fun a b : List Node => a.length ≤ b.length) (insertLenAsc p l) := by
  induction l with
  | nil => simp [insertLenAsc]
  | cons q qs ih =>
    rcases List.sorted_cons.mp h with ⟨hq, hqs⟩
    simp only [insertLenAsc]
    by_cases hc : p.length ≤ q.length
    · rw [if_pos hc]
      refine List.sorted_cons.mpr ⟨?_, h⟩
      intro b hb
      rcases List.mem_cons.mp hb with h1 | h1
      · rw [h1]; exact hc
      · exact le_trans hc (hq b h1)
    · rw [if_neg hc]
      refine List.sorted_cons.mpr ⟨?_, ih hqs⟩
      intro b hb
      rcases (mem_insertLenAsc p b qs).mp hb with h1 | h1
      · rw [h1]; exact le_of_not_le hc
      · exact hq b h1

theorem mem_sortLenAsc (x : List Node) (l : List (List Node)) :
    x ∈ sortLenAsc l ↔ x ∈ l := by
  induction l with
  | nil => simp [sortLenAsc]
  | cons y ys ih =>
    simp only [sortLenAsc]
    rw [mem_insertLenAsc]
    simp [ih]

theorem sorted_sortLenAsc (l : List (List Node)) :
    List.Sorted (fun a b : List Node => a.length ≤ b.length) (sortLenAsc l) := by
  induction l with
  | nil => simp [sortLenAsc]
  | cons y ys ih => exact sorted_insertLenAsc y (sortLenAsc ys) ih

/-- C4: the merged vector-stage list is the function-index rows followed by
the file-index rows, and each part is sorted by descending similarity
score. -/
theorem C4_vector_order : ∀ (s : Session) (qe : List ℚ),
    List.Sorted (fun a b : VRow => b.score ≤ a.score) (functionQueryRows (s.funcIndex qe)) ∧
    List.Sorted (fun a b : VRow => b.score ≤ a.score) (fileQueryRows (s.fileIndex qe)) ∧
    entityResultsOf s qe =
      functionQueryRows (s.funcIndex qe) ++ fileQueryRows (s.fileIndex qe) ∧
    (entityResultsOf s qe).take (functionQueryRows (s.funcIndex qe)).length =
      functionQueryRows (s.funcIndex qe) ∧
    (entityResultsOf s qe).drop (functionQueryRows (s.funcIndex qe)).length =
      fileQueryRows (s.fileIndex qe) := by
  intro s qe
  refine ⟨sorted_sortScoreDesc _, sorted_sortScoreDesc _, rfl, ?_, ?_⟩
  · exact List.take_left _ _
  · exact List.drop_left _ _

/-- C10: a function-index candidate without a `file_path` property is
excluded whatever its score (and every function row carries a file path),
while membership in the file-index rows is decided by the score threshold
alone. -/
theorem C10_filepath_filter : ∀ (cands : List Cand),
    (∀ c : Cand, c.node.file_path = none → functionRowOf c ∉ functionQueryRows cands) ∧
    (∀ r ∈ functionQueryRows cands, r.filePath ≠ none) ∧
    (∀ c ∈ cands, (fileRowOf c ∈ fileQueryRows cands ↔ (0.6 : ℚ) < c.score)) := by
  intro cands
  have hfp : ∀ r ∈ functionQueryRows cands, r.filePath ≠ none := by
    intro r hr
    rw [functionQueryRows, mem_sortScoreDesc] at hr
    rcases List.mem_map.mp hr with ⟨c', hc', hrc⟩
    rcases List.mem_filter.mp hc' with ⟨_, hcond⟩
    have hsome : c'.node.file_path.isSome := by
      have := (Bool.and_eq_true _ _).mp hcond
      exact this.2
    rw [← hrc]
    simp only [functionRowOf]
    intro hnone
    rw [hnone] at hsome
    simp at hsome
  refine ⟨?_, hfp, ?_⟩
  · intro c hc hmem
    have := hfp _ hmem
    simp only [functionRowOf] at this
    exact this hc
  · intro c hc
    constructor
    · intro hmem
      rw [fileQueryRows, mem_sortScoreDesc] at hmem
      rcases List.mem_map.mp hmem with ⟨c', hc', hrc⟩
      rcases List.mem_filter.mp hc' with ⟨_, hcond⟩
      have hsc : (0.6 : ℚ) < c'.score := of_decide_eq_true hcond
      have : c'.score = c.score := congrArg VRow.score hrc
      rw [← this]
      exact hsc
    · intro hsc
      rw [fileQueryRows, mem_sortScoreDesc]
      exact List.mem_map.mpr ⟨c, List.mem_filter.mpr ⟨hc, decide_eq_true hsc⟩, rfl⟩

/-- Witness for C10: a candidate with score 0.9 but no `file_path` is
excluded from the function rows yet the same candidate passes the file-index
query. -/
theorem C10_filepath_filter_w :
    functionRowOf candC10 ∉ functionQueryRows [candC10] ∧
    fileRowOf candC10 ∈ fileQueryRows [candC10] :=
  ⟨(C10_filepath_filter [candC10]).1 candC10 rfl,
   ((C10_filepath_filter [candC10]).2.2 candC10 (by simp)).mpr (by norm_num [candC10])⟩

/-! Lemmas about the dash-encoded seed identifiers of the traversal stage. -/

theorem splitDashAux_nodash (s : Str) :
    ∀ cur : Str, '-' ∉ s → splitDashAux cur s = [cur.reverse ++ s] := by
  induction s with
  | nil => intro cur _; simp [splitDashAux]
  | cons c cs ih =>
    intro cur h
    have hc : ¬ (c = '-') := fun he => h (by rw [he]; simp)
    simp only [splitDashAux]
    rw [if_neg hc]
    rw [ih (c :: cur) (fun hm => h (by simp [hm]))]
    simp

theorem splitDashAux_encode (nm : Str) :
    ∀ (fp cur : Str), '-' ∉ nm →
      splitDashAux cur (nm ++ '-' :: fp) = (cur.reverse ++ nm) :: splitDashAux [] fp := by
  induction nm with
  | nil =>
    intro fp cur _
    simp [splitDashAux]
  | cons c cs ih =>
    intro fp cur h
    have hc : ¬ (c = '-') := fun he => h (by rw [he]; simp)
    simp only [List.cons_append, splitDashAux]
    rw [if_neg hc]
    rw [show cs.append ('-' :: fp) = cs ++ '-' :: fp from rfl]
    rw [ih fp (c :: cur) (fun hm => h (by simp [hm]))]
    simp

theorem splitDash_encode (nm fp : Str) (h1 : '-' ∉ nm) (h2 : '-' ∉ fp) :
    splitDash (nm ++ ['-'] ++ fp) = [nm, fp] := by
  have hshape : nm ++ ['-'] ++ fp = nm ++ '-' :: fp := by simp
  rw [splitDash, hshape, splitDashAux_encode nm fp [] h1]
  rw [splitDashAux_nodash fp [] h2]
  simp

theorem cypherEq_some (o : Option Str) (v : Str) :
    cypherEq o (some v) = decide (o = some v) := by
  cases o with
  | none => simp [cypherEq]
  | some x =>
    simp only [cypherEq]
    rw [decide_eq_decide]
    simp

/-- C2 (amended): when the seed's name and file path are both dash-free, the
traversal query's start matching locates exactly the nodes bearing the
seed's `(name, location)` identity; with a dash in either, the decoded pair
can differ from the seed's (see the counterexample). -/
theorem C2_seed_matching : ∀ (nodes : List Node) (r : VRow),
    '-' ∉ pyStr r.name → '-' ∉ pyStr r.filePath →
    matchStart nodes (entityIdOf r) =
      nodes.filter (seedMatches (pyStr r.name) (pyStr r.filePath)) := by
  intro nodes r h1 h2
  have hsplit : splitDash (entityIdOf r) = [pyStr r.name, pyStr r.filePath] :=
    splitDash_encode _ _ h1 h2
  simp only [matchStart, hsplit]
  apply List.filter_congr
  intro n _
  show ((hasLabel n funcLabel && cypherEq n.name (some (pyStr r.name))
      && cypherEq n.file_path (some (pyStr r.filePath)))
    || (hasLabel n fileLabel && cypherEq n.path (some (pyStr r.filePath))))
    = seedMatches (pyStr r.name) (pyStr r.filePath) n
  rw [cypherEq_some, cypherEq_some, cypherEq_some]
  rfl

/-- C2 counterexample: the seed `(name "a-b", path "c")` encodes to
`"a-b-c"`, which the traversal query decodes as `(name "a", path "b")`: the
node with the seed's identity is not located, a different node is. -/
theorem C2_seed_matching_cex :
    matchStart [nodeC2a, nodeC2b] (entityIdOf seedC2) = [nodeC2b] ∧
    seedMatches ("a-b".data) ("c".data) nodeC2a = true ∧
    nodeC2a ∉ matchStart [nodeC2a, nodeC2b] (entityIdOf seedC2) ∧
    nodeC2b.name ≠ seedC2.name := by
  refine ⟨by decide, by decide, ?_, by decide⟩
  intro hmem
  rw [show matchStart [nodeC2a, nodeC2b] (entityIdOf seedC2) = [nodeC2b] from by decide]
    at hmem
  exact absurd (List.mem_singleton.mp hmem) (by decide)

/-- Witness for C2 at a dash-free seed. -/
theorem C2_seed_matching_w :
    matchStart [nodeC2a] (entityIdOf seedW2) =
      [nodeC2a].filter (seedMatches (pyStr seedW2.name) (pyStr seedW2.filePath)) :=
  C2_seed_matching [nodeC2a] seedW2 (by decide) (by decide)

/-! Lemmas about `dedupFirst` (the model of `DISTINCT`). -/

theorem mem_dedupFirst {α} [DecidableEq α] (l : List α) :
    ∀ (seen : List α) (x : α), x ∈ dedupFirst seen l ↔ x ∈ l ∧ x ∉ seen := by
  induction l with
  | nil => intro seen x; simp [dedupFirst]
  | cons y ys ih =>
    intro seen x
    simp only [dedupFirst]
    by_cases h : y ∈ seen
    · rw [if_pos h, ih]
      constructor
      · intro ⟨h1, h2⟩; exact ⟨List.mem_cons_of_mem y h1, h2⟩
      · intro ⟨h1, h2⟩
        rcases List.mem_cons.mp h1 with h3 | h3
        · exact absurd (h3 ▸ h) h2
        · exact ⟨h3, h2⟩
    · rw [if_neg h]
      simp only [List.mem_cons, ih]
      constructor
      · intro hm
        rcases hm with h1 | ⟨h1, h2⟩
        · exact ⟨Or.inl h1, h1 ▸ h⟩
        · exact ⟨Or.inr h1, fun hx => h2 (Or.inr hx)⟩
      · intro ⟨h1, h2⟩
        rcases h1 with h3 | h3
        · exact Or.inl h3
        · by_cases hxy : x = y
          · exact Or.inl hxy
          · exact Or.inr ⟨h3, by simp [hxy, h2]⟩

theorem nodup_dedupFirst {α} [DecidableEq α] (l : List α) :
    ∀ seen : List α, (dedupFirst seen l).Nodup := by
  induction l with
  | nil => intro seen; simp [dedupFirst]
  | cons y ys ih =>
    intro seen
    simp only [dedupFirst]
    by_cases h : y ∈ seen
    · rw [if_pos h]; exact ih seen
    · rw [if_neg h]
      refine List.nodup_cons.mpr ⟨?_, ih (y :: seen)⟩
      intro hy
      exact ((mem_dedupFirst ys (y :: seen) y).mp hy).2 (by simp)

/-- C6 (amended): the traversal stage returns at most 20 rows, and every
returned row is the projection of a node reached from some matched seed and
distinct from that seed (the `node <> start` filter); it may still equal a
different seed (see the counterexample). -/
theorem C6_traversal : ∀ (nodes : List Node) (reach : Node → List Node) (eids : List Str),
    (traversalRows nodes reach eids).length ≤ 20 ∧
    ∀ r ∈ traversalRows nodes reach eids,
      ∃ s ∈ eids.flatMap (fun eid => matchStart nodes eid),
        ∃ n, n ∈ reach s ∧ n ≠ s ∧ r = nodeRowOf n := by
  intro nodes reach eids
  constructor
  · rw [traversalRows]
    rw [List.length_take]
    exact min_le_left _ _
  · intro r hr
    rw [traversalRows] at hr
    have hr1 := List.mem_of_mem_take hr
    have hr2 := ((mem_dedupFirst _ _ _).mp hr1).1
    rcases List.mem_map.mp hr2 with ⟨n, hn, hnr⟩
    rcases List.mem_flatMap.mp hn with ⟨s, hs, hns⟩
    rcases List.mem_filter.mp hns with ⟨hmem, hneq⟩
    exact ⟨s, hs, n, hmem, of_decide_eq_true hneq, hnr.symm⟩

/-- C6 counterexample: with two seeds where the first reaches the second,
the traversal output contains the second seed — a seed entity appears in the
stage's own output. -/
theorem C6_traversal_cex :
    nodeC6b ∈ eidsC6.flatMap (fun eid => matchStart nodesC6 eid) ∧
    nodeRowOf nodeC6b ∈ traversalRows nodesC6 reachC6 eidsC6 := by decide

/-- Witness for C6 at the two-seed session. -/
theorem C6_traversal_w :
    (traversalRows nodesC6 reachC6 eidsC6).length ≤ 20 ∧
    ∃ s ∈ eidsC6.flatMap (fun eid => matchStart nodesC6 eid),
      ∃ n, n ∈ reachC6 s ∧ n ≠ s ∧ nodeRowOf nodeC6b = nodeRowOf n :=
  ⟨(C6_traversal nodesC6 reachC6 eidsC6).1,
   (C6_traversal nodesC6 reachC6 eidsC6).2 (nodeRowOf nodeC6b) (by decide)⟩

theorem pathStage_lt2 (s : Session) (er : List VRow) (ctx : List Str)
    (h : er.length < 2) : pathStage s er ctx = .ok ctx := by
  rw [pathStage, if_neg (by omega)]
  rfl

/-- C5 (amended): the path stage runs iff at least two merged vector results
exist, and then passes the names of the top two results; the query keeps at
most 3 candidate paths, sorted shortest-first and of minimal length among
all candidate paths between name-matched node pairs; under the external
primitive's length contract every kept path has at most 3 hops (4 nodes);
and the stage's rows are exactly the distinct projections of the nodes
constituting the kept paths.  The node pairs are matched by name alone, so a
kept path need not connect the two seed entities themselves (see the
counterexample). -/
theorem C5_path_stage :
    (∀ (s : Session) (er : List VRow) (ctx : List Str),
      er.length < 2 → pathStage s er ctx = .ok ctx) ∧
    (∀ (s : Session) (er : List VRow) (ctx : List Str),
      2 ≤ er.length → s.pathFails = false →
      pathStage s er ctx = .ok (ctx ++
        (pathQueryRows s.nodes s.simplePaths ((er.get? 0).bind (fun r => r.name))
          ((er.get? 1).bind (fun r => r.name))).map pathLine)) ∧
    (∀ (nodes : List Node) (sp : Node → Node → List (List Node)) (e1 e2 : Option Str),
      (chosenPaths nodes sp e1 e2).length ≤ 3 ∧
      List.Sorted (fun a b : List Node => a.length ≤ b.length) (chosenPaths nodes sp e1 e2) ∧
      (∀ p ∈ chosenPaths nodes sp e1 e2, ∀ q ∈ pathCandidates nodes sp e1 e2,
        q ∉ chosenPaths nodes sp e1 e2 → p.length ≤ q.length) ∧
      (pathQueryRows nodes sp e1 e2).Nodup ∧
      (∀ r, r ∈ pathQueryRows nodes sp e1 e2 ↔
        ∃ p ∈ chosenPaths nodes sp e1 e2, ∃ n ∈ p, r = nodeRowOf n)) ∧
    (∀ (nodes : List Node) (sp : Node → Node → List (List Node)) (e1 e2 : Option Str),
      (∀ a b p, p ∈ sp a b → p.length ≤ 4) →
      ∀ p ∈ chosenPaths nodes sp e1 e2, p.length ≤ 4) := by
  refine ⟨?_, ?_, ?_, ?_⟩
  · exact pathStage_lt2
  · intro s er ctx h1 h2
    rw [pathStage, if_pos h1]
    simp [runPathQ, h2, liftQ]
  · intro nodes sp e1 e2
    refine ⟨?_, ?_, ?_, nodup_dedupFirst _ _, ?_⟩
    · rw [chosenPaths, List.length_take]
      exact min_le_left _ _
    · exact List.Pairwise.sublist (List.take_sublist 3 _) (sorted_sortLenAsc _)
    · intro p hp q hq hqn
      have hsorted := sorted_sortLenAsc (pathCandidates nodes sp e1 e2)
      have hq2 : q ∈ sortLenAsc (pathCandidates nodes sp e1 e2) :=
        (mem_sortLenAsc _ _).mpr hq
      rw [← List.take_append_drop 3 (sortLenAsc (pathCandidates nodes sp e1 e2))] at hq2
      rcases List.mem_append.mp hq2 with h3 | h3
      · exact absurd h3 hqn
      · have hps := hsorted
        rw [← List.take_append_drop 3 (sortLenAsc (pathCandidates nodes sp e1 e2))] at hps
        exact (List.pairwise_append.mp hps).2.2 p hp q h3
    · intro r
      rw [pathQueryRows]
      rw [mem_dedupFirst]
      simp only [List.not_mem_nil, not_false_iff, and_true]
      constructor
      · intro hr
        rcases List.mem_map.mp hr with ⟨n, hn, hnr⟩
        rcases List.mem_flatMap.mp hn with ⟨p, hp, hnp⟩
        exact ⟨p, hp, n, hnp, hnr.symm⟩
      · intro ⟨p, hp, n, hnp, hrn⟩
        exact List.mem_map.mpr
          ⟨n, List.mem_flatMap.mpr ⟨p, hp, show n ∈ id p from hnp⟩, hrn.symm⟩
  · intro nodes sp e1 e2 hcontract p hp
    have h1 : p ∈ sortLenAsc (pathCandidates nodes sp e1 e2) :=
      List.mem_of_mem_take hp
    have h2 : p ∈ pathCandidates nodes sp e1 e2 := (mem_sortLenAsc _ _).mp h1
    rcases List.mem_flatMap.mp h2 with ⟨ab, _, hpab⟩
    exact hcontract ab.1 ab.2 p hpab

/-- C5 counterexample: the top two results are the entities `(X, p1)` and
`(Y, q)`; no simple path exists between those two entities, yet the stage
contributes the entities of a path between a *different* node that merely
shares the name `X` and the `Y` node. -/
theorem C5_path_stage_cex :
    pathStage sessC5 erC5 [] =
      .ok [pathLine (nodeRowOf nodeC5a1), pathLine (nodeRowOf nodeC5b)] ∧
    sessC5.simplePaths nodeC5a0 nodeC5b = [] ∧
    nodeC5a0.name = (erC5.get? 0).bind (fun r => r.name) ∧
    nodeC5a0.file_path = (erC5.get? 0).bind (fun r => r.filePath) ∧
    nodeC5a1.file_path ≠ (erC5.get? 0).bind (fun r => r.filePath) :=
  ⟨rfl, rfl, rfl, rfl, by decide⟩

/-- Witness for C5: the guard at an empty result list, the run at the
two-result session, and the hop bound for its concrete path oracle. -/
theorem C5_path_stage_w :
    pathStage sess0 [] [] = .ok [] ∧
    pathStage sessC5 erC5 [] = .ok ([] ++
      (pathQueryRows sessC5.nodes sessC5.simplePaths ((erC5.get? 0).bind (fun r => r.name))
        ((erC5.get? 1).bind (fun r => r.name))).map pathLine) ∧
    (∀ p ∈ chosenPaths sessC5.nodes sessC5.simplePaths (some ("X".data)) (some ("Y".data)),
      p.length ≤ 4) :=
  ⟨C5_path_stage.1 sess0 [] [] (by decide),
   C5_path_stage.2.1 sessC5 erC5 [] (by decide) rfl,
   C5_path_stage.2.2.2 sessC5.nodes sessC5.simplePaths (some ("X".data)) (some ("Y".data))
     (by
       intro a b p hp
       simp only [sessC5, spC5] at hp
       split at hp
       · rw [List.mem_singleton.mp hp]; simp
       · simp at hp)⟩

/-! Failure semantics of the retrieval pipeline (one try/except around all
five stages). -/

theorem tryBody_funcFail (s : Session) (qe : List ℚ) (uq : Str)
    (h : s.funcFails = true) : tryBody s qe uq = .error [] := by
  rw [tryBody, runFuncQ, if_pos h]
  rfl

theorem tryBody_travFail (s : Session) (qe : List ℚ) (uq : Str)
    (hf : s.funcFails = false) (hfl : s.fileFails = false) (htr : s.travFails = true)
    (her : entityResultsOf s qe ≠ []) :
    tryBody s qe uq =
      .error ((entityResultsOf s qe).map (fun r => entityLine r.toRow)) := by
  rw [entityResultsOf] at her
  rw [tryBody, runFuncQ, if_neg (by simp [hf]), runFileQ, if_neg (by simp [hfl])]
  show (liftQ (Except.ok (functionQueryRows (s.funcIndex qe))) [] >>= _) = _
  rw [show ∀ (a : List VRow) k, (liftQ (Except.ok a) [] >>= k :
      Except (List Str) (List Str)) = k a from fun a k => rfl]
  rw [show ∀ (a : List VRow) k, (liftQ (Except.ok a) [] >>= k :
      Except (List Str) (List Str)) = k a from fun a k => rfl]
  simp only [her, if_neg, ite_false, Bool.false_eq_true]
  rw [runTravQ, if_pos htr]
  rfl

/-- C1 (amended): a failing stage query is caught and the request is not
aborted — `retrieve_graph_context` returns normally with the evidence
accumulated before the failure (the sentinel when nothing was accumulated
yet) — but the stages after the failing query are skipped rather than
executed. -/
theorem C1_stage_failure : ∀ (s : Session) (qe : List ℚ) (uq : Str),
    (s.funcFails = true → retrieve_graph_context s qe uq = noContextMsg) ∧
    (s.funcFails = false → s.fileFails = false → s.travFails = true →
      entityResultsOf s qe ≠ [] →
      retrieve_graph_context s qe uq =
        List.intercalate ("\n".data)
          ((entityResultsOf s qe).map (fun r => entityLine r.toRow))) := by
  intro s qe uq
  constructor
  · intro h
    simp only [retrieve_graph_context, collectedContext, tryBody_funcFail s qe uq h]
    rfl
  · intro hf hfl htr her
    simp only [retrieve_graph_context, collectedContext, tryBody_travFail s qe uq hf hfl htr her]
    rw [if_neg (by simp [her])]

/-- C1 counterexample: the function vector query fails while the keyword
name query would succeed with a hit; the claim would make the keyword stage
contribute evidence, but the whole result is the bare sentinel — the later
stages never ran. -/
theorem C1_stage_failure_cex :
    retrieve_graph_context sessC1 [] uqC1 = noContextMsg ∧
    extractKeywords uqC1 ≠ [] ∧
    sessC1.nameFails = false ∧
    nameQueryRows sessC1.nodes (extractKeywords uqC1) ≠ [] := by
  refine ⟨rfl, by decide, rfl, by decide⟩

theorem functionQueryRows_candW1 :
    functionQueryRows [candW1] = [functionRowOf candW1] := by
  have hpred : (decide ((0.6 : ℚ) < candW1.score) && candW1.node.file_path.isSome) = true := by
    have h1 : (0.6 : ℚ) < candW1.score := by norm_num [candW1]
    have h2 : candW1.node.file_path.isSome = true := rfl
    simp [h1, h2]
  simp only [functionQueryRows, List.filter, hpred, List.map_cons, List.map_nil,
    sortScoreDesc, insertScoreDesc]

theorem entityResultsOf_sessW1 (qe : List ℚ) :
    entityResultsOf sessW1 qe = [functionRowOf candW1] := by
  rw [entityResultsOf]
  rw [show sessW1.funcIndex qe = [candW1] from rfl]
  rw [show sessW1.fileIndex qe = [] from rfl]
  rw [functionQueryRows_candW1]
  rfl

/-- Witness for C1: a failing first query yields the sentinel; a failing
traversal query yields exactly the stage-1 evidence. -/
theorem C1_stage_failure_w :
    retrieve_graph_context sessW1a [] [] = noContextMsg ∧
    retrieve_graph_context sessW1 [] [] =
      List.intercalate ("\n".data)
        ((entityResultsOf sessW1 []).map (fun r => entityLine r.toRow)) :=
  ⟨(C1_stage_failure sessW1a [] []).1 rfl,
   (C1_stage_failure sessW1 [] []).2 rfl rfl rfl
     (by rw [entityResultsOf_sessW1]; simp)⟩

/-- C3: if the evidence list assembled by the five stages is empty the
function returns exactly the sentinel string (which is not empty), otherwise
the newline join of the evidence sentences; in particular a run whose two
vector queries and two keyword queries all succeed with no hits returns the
sentinel. -/
theorem C3_empty_sentinel : ∀ (s : Session) (qe : List ℚ) (uq : Str),
    noContextMsg ≠ [] ∧
    (collectedContext s qe uq = [] → retrieve_graph_context s qe uq = noContextMsg) ∧
    (collectedContext s qe uq ≠ [] →
      retrieve_graph_context s qe uq =
        List.intercalate ("\n".data) (collectedContext s qe uq)) ∧
    (s.funcFails = false → s.fileFails = false →
      s.nameFails = false → s.descFails = false →
      functionQueryRows (s.funcIndex qe) = [] → fileQueryRows (s.fileIndex qe) = [] →
      nameQueryRows s.nodes (extractKeywords uq) = [] →
      descQueryRows s.nodes (extractKeywords uq) = [] →
      retrieve_graph_context s qe uq = noContextMsg) := by
  intro s qe uq
  refine ⟨by decide, ?_, ?_, ?_⟩
  · intro h
    simp only [retrieve_graph_context]
    rw [if_pos h]
  · intro h
    simp only [retrieve_graph_context]
    rw [if_neg h]
  · intro hf hfl hn hd hfr hflr hnr hdr
    have hbody : tryBody s qe uq = .ok [] := by
      by_cases hkw : extractKeywords uq = []
      · simp [tryBody, runFuncQ, runFileQ, hf, hfl, hfr, hflr, liftQ, pathStage,
          hkw, Bind.bind, Except.bind, pure, Except.pure, dedupFirst]
      · simp [tryBody, runFuncQ, runFileQ, runNameQ, runDescQ, hf, hfl, hn, hd,
          hfr, hflr, hnr, hdr, liftQ, pathStage, runPathQ, hkw,
          Bind.bind, Except.bind, pure, Except.pure, dedupFirst]
    simp only [retrieve_graph_context, collectedContext, hbody]
    rfl

/-- Witness for C3: the empty session returns the sentinel both through the
empty-evidence branch and through the no-hits hypotheses; the one-hit
session with a failing traversal returns the newline join of its nonempty
evidence. -/
theorem C3_empty_sentinel_w :
    retrieve_graph_context sess0 [] [] = noContextMsg ∧
    retrieve_graph_context sess0 [] ("nothing".data) = noContextMsg ∧
    retrieve_graph_context sessW1 [] [] =
      List.intercalate ("\n".data) (collectedContext sessW1 [] []) :=
  ⟨(C3_empty_sentinel sess0 [] []).2.1 rfl,
   (C3_empty_sentinel sess0 [] ("nothing".data)).2.2.2 rfl rfl rfl rfl rfl rfl rfl rfl,
   (C3_empty_sentinel sessW1 [] []).2.2.1 (by
     rw [collectedContext, tryBody_travFail sessW1 [] [] rfl rfl rfl
       (by rw [entityResultsOf_sessW1]; simp)]
     rw [entityResultsOf_sessW1]
     simp)⟩

/-- C8 (amended): only *empty* text short-circuits: `generate_embeddings`
returns the empty result without invoking the provider for the empty
string, and invokes the provider for every non-empty text — including
whitespace-only (blank) text, contrary to the claim. -/
theorem C8_empty_embedding :
    (∀ provider : Str → Except PyErr (List ℚ),
      generate_embeddings provider [] = (.ok [], false)) ∧
    (∀ (provider : Str → Except PyErr (List ℚ)) (t : Str), t ≠ [] →
      (generate_embeddings provider t).2 = true) := by
  constructor
  · intro provider; rfl
  · intro provider t ht
    rw [generate_embeddings, if_neg ht]
    cases provider t <;> rfl

/-- C8 counterexample: the whitespace-only text `" "` is blank, yet the
provider is invoked on it (`if not text:` is false for `" "`). -/
theorem C8_empty_embedding_cex :
    isBlank ([' ']) = true ∧ (generate_embeddings provC8 [' ']).2 = true :=
  ⟨rfl, rfl⟩

/-- Witness for C8: the empty and a one-letter text. -/
theorem C8_empty_embedding_w :
    generate_embeddings provC8 [] = (.ok [], false) ∧
    (generate_embeddings provC8 ("a".data)).2 = true :=
  ⟨C8_empty_embedding.1 provC8,
   C8_empty_embedding.2 provC8 ("a".data) (by decide)⟩

/-- C9 (amended): the sentinel-success and the generic error envelope are
not the only non-happy-path shapes.  Complete enumeration: /api/chat can
additionally return the bespoke missing-query body and the bespoke
embedding-failure body; /healthz always answers with its
`\x7bstatus, message\x7d` body; /api/clear-database answers its failures
either with the envelope (connection errors) or with its
`\x7bsuccess: false, message\x7d` body. -/
theorem C9_response_shapes :
    (∀ (d : ChatDeps) (q : Option Str), nonHappy (chat_with_graph d q) = true →
      isSentinelOkShape (chat_with_graph d q).1 = true ∨
      isEnvelopeShape (chat_with_graph d q).1 = true ∨
      (chat_with_graph d q).1 = .chatMissingQuery ∨
      (chat_with_graph d q).1 = .chatEmbedEmpty) ∧
    (∀ hs : HealthScenario, ∃ st m, (health_check hs).1 = .healthStatus st m) ∧
    (∀ cs : ClearScenario, nonHappy (clear_database cs) = true →
      isEnvelopeShape (clear_database cs).1 = true ∨
      ∃ m, (clear_database cs).1 = .clearBody false m) := by
  refine ⟨?_, ?_, ?_⟩
  · intro d q hn
    cases q with
    | none => exact Or.inr (Or.inr (Or.inl rfl))
    | some qq =>
      by_cases h1 : qq = []
      · have hcg : chat_with_graph d (some qq) = (.chatMissingQuery, 400) := by
          simp [chat_with_graph, h1]
        rw [hcg]
        exact Or.inr (Or.inr (Or.inl rfl))
      · by_cases h2 : d.connectOk
        · cases hemb : (generate_embeddings d.provider qq).1 with
          | error e =>
            cases e with
            | googleApi =>
              have hcg : chat_with_graph d (some qq) =
                  (googleErrorEnvelope d.googleReason, 500) := by
                simp [chat_with_graph, h1, h2, hemb]
              rw [hcg]
              exact Or.inr (Or.inl rfl)
            | generic =>
              have hcg : chat_with_graph d (some qq) = (genericErrorEnvelope, 500) := by
                simp [chat_with_graph, h1, h2, hemb]
              rw [hcg]
              exact Or.inr (Or.inl rfl)
          | ok emb =>
            by_cases h3 : emb = []
            · have hcg : chat_with_graph d (some qq) = (.chatEmbedEmpty, 500) := by
                simp [chat_with_graph, h1, h2, hemb, h3]
              rw [hcg]
              exact Or.inr (Or.inr (Or.inr rfl))
            · cases hgen : d.genResult (retrieve_graph_context d.s emb qq) with
              | ok txt =>
                have hcg : chat_with_graph d (some qq) =
                    (.chatOk txt (retrieve_graph_context d.s emb qq), 200) := by
                  simp [chat_with_graph, h1, h2, hemb, h3, hgen]
                rw [hcg] at hn ⊢
                left
                simpa [nonHappy] using hn
              | error e =>
                cases e with
                | googleApi =>
                  have hcg : chat_with_graph d (some qq) =
                      (googleErrorEnvelope d.googleReason, 500) := by
                    simp [chat_with_graph, h1, h2, hemb, h3, hgen]
                  rw [hcg]
                  exact Or.inr (Or.inl rfl)
                | generic =>
                  have hcg : chat_with_graph d (some qq) = (genericErrorEnvelope, 500) := by
                    simp [chat_with_graph, h1, h2, hemb, h3, hgen]
                  rw [hcg]
                  exact Or.inr (Or.inl rfl)
        · have hcg : chat_with_graph d (some qq) = (dbErrorEnvelope, 500) := by
            simp [chat_with_graph, h1, h2]
          rw [hcg]
          exact Or.inr (Or.inl rfl)
  · intro hs
    cases hs <;> exact ⟨_, _, rfl⟩
  · intro cs hn
    cases cs with
    | allOk => simp [nonHappy, clear_database, isSentinelOkShape] at hn
    | connFail => exact Or.inl rfl
    | neo4jErr e => exact Or.inr ⟨_, rfl⟩
    | otherErr e => exact Or.inr ⟨_, rfl⟩

/-- C9 counterexample: the missing-query 400 response
`\x7b"response": "Please provide a query."\x7d` is a non-happy-path body
that is neither the sentinel-success shape nor the error envelope. -/
theorem C9_response_shapes_cex :
    nonHappy (chat_with_graph depsC9 none) = true ∧
    isSentinelOkShape (chat_with_graph depsC9 none).1 = false ∧
    isEnvelopeShape (chat_with_graph depsC9 none).1 = false :=
  ⟨rfl, rfl, rfl⟩

/-- Witness for C9 at concrete scenarios. -/
theorem C9_response_shapes_w :
    (isSentinelOkShape (chat_with_graph depsC9 none).1 = true ∨
     isEnvelopeShape (chat_with_graph depsC9 none).1 = true ∨
     (chat_with_graph depsC9 none).1 = .chatMissingQuery ∨
     (chat_with_graph depsC9 none).1 = .chatEmbedEmpty) ∧
    (∃ st m, (health_check (HealthScenario.connFail [])).1 = .healthStatus st m) ∧
    (isEnvelopeShape (clear_database ClearScenario.connFail).1 = true ∨
     ∃ m, (clear_database ClearScenario.connFail).1 = .clearBody false m) :=
  ⟨C9_response_shapes.1 depsC9 none rfl,
   C9_response_shapes.2.1 (HealthScenario.connFail []),
   C9_response_shapes.2.2 ClearScenario.connFail rfl⟩

end GraphRag
